import Mathlib

/-!
# Verification of the spotify-to-github pagination-and-reconciliation client

A shallow embedding of the repository's core (src/spotify.ts, src/main.ts,
src/functions.ts: the paged fetcher, the deterministic comparators, the
mutation batcher and the playlist reconciler), with theorems settling the
frozen claims about it.

Conventions of the embedding:
* a TypeScript `Record<string, string>` is a list of key/value pairs looked
  up by first match, so an object spread `{ a: "1", ...q }` is embedded as
  `q ++ [("a", "1")]` (the overriding bindings come first);
* JavaScript numbers that the source only ever holds as non-negative
  integers become `Nat`; signed comparator results become `Int`;
* a remote call is a pure function supplied as a parameter; the embedding
  returns, next to the source's result, the list of requests issued in
  issue order (`Promise.all` resolves in request order, not completion
  order, so the deterministic embedding is faithful to the reassembly);
* code that would throw a `TypeError` (an out-of-bounds `[0]` access)
  returns `none` in an `Option`-valued embedding.
-/

namespace SpotifyToGithub

/-- A `Record<string, string>` query object, as a list of key/value pairs. -/
abbrev Query := List (String × String)

/-- Property lookup on a query record: the first binding of the key wins. -/
def qlookup (q : Query) (k : String) : Option String :=
  (q.find? (fun p => p.1 == k)).map (·.2)

/-- Object spread `{ ...base, ...overrides }`: a key bound in `overrides`
shadows the binding in `base`.  With first-match lookup this is embedding
the overriding bindings in front. -/
def mergeQ (base overrides : Query) : Query :=
  overrides ++ base

/-- A `SpotifyApi.PagingObject<T>` response, restricted to the fields the
client reads (`items`, `limit`, `total`). -/
structure Page (α : Type) where
  items : List α
  limit : Nat
  total : Nat
deriving DecidableEq

/-- `getAllSaved` from src/spotify.ts (offset-mode paged fetcher):

```ts
const { limit, total, items } = await getFunction({ limit: "50", ...query });
const promises = [];
for (let i = 1; i <= Math.floor(total / 50); i++) {
  promises.push(getFunction({ limit: `${limit}`, offset: `${i * limit}`, ...query }));
}
const rest = (await Promise.all(promises)).map((r) => r.items).flat();
return [...items, ...rest];
```

Returns the source's value together with the issued requests, first request
first, then the `Promise.all` batch in issue order. -/
def getAllSaved (pageFn : Query → Page α) (query : Query) :
    List α × List Query :=
  let firstReq := mergeQ [("limit", "50")] query
  let first := pageFn firstReq
  let restReqs := (List.range' 1 (first.total / 50)).map fun i =>
    mergeQ [("limit", toString first.limit), ("offset", toString (i * first.limit))] query
  (first.items ++ ((restReqs.map pageFn).map Page.items).flatten,
   firstReq :: restReqs)

/-- `getAllTopItems` from src/spotify.ts: the fixed two-call protocol for the
top-items endpoints (the remote reports at most 50 items but serves 49 more
at `limit=50, offset=49`):

```ts
const { items: first49 } = await getFunction({ limit: "49", ...query });
const { items: rest } = await getFunction({ limit: "50", offset: "49", ...query });
return [...first49, ...rest];
``` -/
def getAllTopItems (pageFn : Query → Page α) (query : Query) :
    List α × List Query :=
  let req1 := mergeQ [("limit", "49")] query
  let req2 := mergeQ [("limit", "50"), ("offset", "49")] query
  ((pageFn req1).items ++ (pageFn req2).items, [req1, req2])

/-! ## Helper lemmas about slicing a collection into pages -/

/-- Joining the pages at offsets `k*50, (k+1)*50, …, (k+n-1)*50` of a
collection yields the slice starting at `k*50` of length `n*50`. -/
theorem flatten_pages (L : List α) :
    ∀ (n k : Nat),
      ((List.range' k n).map (fun i => (L.drop (i * 50)).take 50)).flatten
        = (L.drop (k * 50)).take (n * 50) := by
  intro n
  induction n with
  | zero => intro k; simp
  | succ m ih =>
    intro k
    rw [List.range'_succ]
    simp only [List.map_cons, List.flatten_cons, ih (k + 1)]
    have hdrop : L.drop ((k + 1) * 50) = (L.drop (k * 50)).drop 50 := by
      rw [List.drop_drop]; ring_nf
    rw [hdrop, ← List.take_add]
    congr 1
    ring

/-- `total/50` extra pages of 50 after the first page of 50 cover the whole
collection. -/
theorem take_append_pages (L : List α) :
    L.take 50 ++ ((List.range' 1 (L.length / 50)).map
      (fun i => (L.drop (i * 50)).take 50)).flatten = L := by
  rw [flatten_pages]
  have h1 : (1 : Nat) * 50 = 50 := by norm_num
  rw [h1, ← List.take_add]
  apply List.take_of_length_le
  have h := Nat.div_add_mod L.length 50
  have h2 := Nat.mod_lt L.length (show 0 < 50 by norm_num)
  omega

/-- Lookup in a merged record falls through to the base when the overriding
record does not bind the key. -/
theorem qlookup_mergeQ (base q : Query) (k : String)
    (h : qlookup q k = none) : qlookup (mergeQ base q) k = qlookup base k := by
  unfold qlookup mergeQ at *
  rw [List.find?_append]
  cases hf : q.find? (fun p => p.1 == k) with
  | none => simp
  | some v => rw [hf] at h; simp at h

/-- Core behaviour of `getAllSaved` against a faithful remote: the result
is the whole collection and the request log is the first call followed by
one call per further page, ascending offsets. -/
theorem getAllSaved_served {α : Type} (pageFn : Query → Page α)
    (coll : List α)
    (hfirst : pageFn [("limit", "50")] = ⟨coll.take 50, 50, coll.length⟩)
    (hrest : ∀ i, 1 ≤ i →
      pageFn [("limit", "50"), ("offset", toString (i * 50))]
        = ⟨(coll.drop (i * 50)).take 50, 50, coll.length⟩) :
    (getAllSaved pageFn []).1 = coll ∧
    (getAllSaved pageFn []).2 =
      [("limit", "50")] :: (List.range' 1 (coll.length / 50)).map
        (fun i => [("limit", "50"), ("offset", toString (i * 50))]) := by
  have h50 : toString (50 : Nat) = "50" := rfl
  constructor
  · simp only [getAllSaved, mergeQ, List.append_nil, List.nil_append, hfirst, h50,
      List.map_map]
    rw [List.map_congr_left (g := fun i => (coll.drop (i * 50)).take 50)]
    · exact take_append_pages coll
    · intro i hi
      have h1 : 1 ≤ i := (List.mem_range'_1.mp hi).1
      simp only [Function.comp_apply, hrest i h1]
  · simp only [getAllSaved, mergeQ, List.append_nil, List.nil_append, hfirst, h50]

/-- **C1** (offset pagination completeness): assuming the remote faithfully
serves pages of the collection `coll` (the first page holds the first 50
items and reports `total = coll.length`; the page requested at offset
`i * 50` holds the slice of `coll` starting there, of length at most 50),
`getAllSaved` issues a first call with `limit=50` and then `total / 50`
further calls at offsets `50, 100, …`, in ascending offset order, and
returns exactly `coll` — every item once, no duplicates, no gaps, first
page first and subsequent pages in request order. -/
theorem getAllSaved_offset_pagination_complete {α : Type} (pageFn : Query → Page α)
    (coll : List α)
    (hfirst : pageFn [("limit", "50")] = ⟨coll.take 50, 50, coll.length⟩)
    (hrest : ∀ i, 1 ≤ i →
      pageFn [("limit", "50"), ("offset", toString (i * 50))]
        = ⟨(coll.drop (i * 50)).take 50, 50, coll.length⟩) :
    (getAllSaved pageFn []).1 = coll ∧
    (getAllSaved pageFn []).2 =
      [("limit", "50")] :: (List.range' 1 (coll.length / 50)).map
        (fun i => [("limit", "50"), ("offset", toString (i * 50))]) :=
  getAllSaved_served pageFn coll hfirst hrest

/-- A remote holding the one-item collection `[7]`: the first page carries
it, every further page is empty.  Used to instantiate C1's hypotheses. -/
def pageFnW : Query → Page Nat := fun q =>
  if q = [("limit", "50")] then ⟨[7], 50, 1⟩ else ⟨[], 50, 1⟩

theorem getAllSaved_offset_pagination_complete_witness :
    (getAllSaved pageFnW []).1 = [7] := by
  have h := getAllSaved_offset_pagination_complete pageFnW [7]
    (by decide)
    (fun i hi => by
      unfold pageFnW
      rw [if_neg (by simp)]
      have hd : ([7] : List Nat).drop (i * 50) = [] :=
        List.drop_eq_nil_of_le (by simp; omega)
      rw [hd]
      rfl)
  exact h.1

/-- A remote holding a 50-item collection: exactly at the page boundary. -/
def pageFn50 : Query → Page Nat := fun q =>
  if q = [("limit", "50")] then ⟨List.replicate 50 0, 50, 50⟩ else ⟨[], 50, 50⟩

/-- **C5** counterexample: with `total = 50` (exactly divisible by the
limit) the paginator does issue a second request, and that request's offset
is `50 = total` — an offset *at* the reported total, contradicting the
claim that no request is issued at an offset at or past `total`. -/
theorem getAllSaved_offset_at_total_cex :
    (getAllSaved pageFn50 []).2 =
      [[("limit", "50")], [("limit", "50"), ("offset", "50")]] ∧
    (pageFn50 [("limit", "50")]).total = 50 := by
  constructor <;> rfl

/-- **C5** (amended): when `total < 50` the first page is the only request;
every further request sits at an offset `i * 50 ≤ total` (the paginator
never fetches strictly past the total); and when `total` is positive and
exactly divisible by the limit, a request *is* issued at offset exactly
`total`, and the page it fetches is empty (the boundary is empty-safe). -/
theorem getAllSaved_edge_cases {α : Type} (pageFn : Query → Page α)
    (coll : List α)
    (hfirst : pageFn [("limit", "50")] = ⟨coll.take 50, 50, coll.length⟩)
    (hrest : ∀ i, 1 ≤ i →
      pageFn [("limit", "50"), ("offset", toString (i * 50))]
        = ⟨(coll.drop (i * 50)).take 50, 50, coll.length⟩) :
    (coll.length < 50 → (getAllSaved pageFn []).2 = [[("limit", "50")]]) ∧
    (∀ r ∈ (getAllSaved pageFn []).2.tail,
      ∃ i, 1 ≤ i ∧ i * 50 ≤ coll.length ∧
        r = [("limit", "50"), ("offset", toString (i * 50))]) ∧
    (50 ∣ coll.length → 0 < coll.length →
      [("limit", "50"), ("offset", toString coll.length)] ∈ (getAllSaved pageFn []).2 ∧
      (pageFn [("limit", "50"), ("offset", toString coll.length)]).items = []) := by
  have hlog := (getAllSaved_served pageFn coll hfirst hrest).2
  refine ⟨?_, ?_, ?_⟩
  · intro hlt
    rw [hlog, Nat.div_eq_of_lt hlt]
    rfl
  · intro r hr
    rw [hlog] at hr
    simp only [List.tail_cons, List.mem_map] at hr
    obtain ⟨i, hi, rfl⟩ := hr
    obtain ⟨h1, h2⟩ := List.mem_range'_1.mp hi
    refine ⟨i, h1, ?_, rfl⟩
    have h := Nat.div_add_mod coll.length 50
    omega
  · intro hdvd hpos
    obtain ⟨k, hk⟩ := hdvd
    have hk1 : 1 ≤ k := by omega
    have hdiv : coll.length / 50 = k := by omega
    constructor
    · rw [hlog]
      refine List.mem_cons_of_mem _ (List.mem_map.mpr ⟨k, ?_, ?_⟩)
      · exact List.mem_range'_1.mpr ⟨hk1, by omega⟩
      · rw [hk, Nat.mul_comm]
    · have h := hrest k hk1
      rw [Nat.mul_comm] at hk
      rw [← hk] at h
      rw [h]
      simp

theorem getAllSaved_edge_cases_witness :
    [("limit", "50"), ("offset", "50")] ∈ (getAllSaved pageFn50 []).2 ∧
    (pageFn50 [("limit", "50"), ("offset", "50")]).items = [] := by
  have h := getAllSaved_edge_cases pageFn50 (List.replicate 50 0)
    (by decide)
    (fun i hi => by
      unfold pageFn50
      rw [if_neg (by simp)]
      have hd : (List.replicate 50 0).drop (i * 50) = [] :=
        List.drop_eq_nil_of_le (by simp; omega)
      rw [hd]
      simp)
  exact h.2.2 (by decide) (by decide)

/-- **C3** counterexample: the source builds the two top-items requests as
`{ limit: "49", ...query }` and `{ limit: "50", offset: "49", ...query }`,
so a query that itself binds `limit` overrides the fixed protocol: with
`query = {limit: "10"}` both issued requests carry `limit=10`, not the
claimed `49` and `50`. -/
theorem getAllTopItems_limit_override_cex :
    ((getAllTopItems (fun _ => (⟨[], 0, 0⟩ : Page Nat)) [("limit", "10")]).2.map
      (fun r => qlookup r "limit")) = [some "10", some "10"] := by
  rfl

/-- **C3** (amended): for every query that does not itself bind the `limit`
or `offset` keys (in particular the `time_range` queries the callers use),
`getAllTopItems` issues exactly two page requests — the first with
`limit=49` and no offset (offset 0), the second with `limit=50` and
`offset=49` — in that order, issues no further request whatever the remote
reports, and returns the concatenation of the two responses' items in that
order. -/
theorem getAllTopItems_two_calls {α : Type} (pageFn : Query → Page α)
    (query : Query)
    (hl : qlookup query "limit" = none) (ho : qlookup query "offset" = none) :
    (getAllTopItems pageFn query).2 =
      [mergeQ [("limit", "49")] query, mergeQ [("limit", "50"), ("offset", "49")] query] ∧
    qlookup (mergeQ [("limit", "49")] query) "limit" = some "49" ∧
    qlookup (mergeQ [("limit", "49")] query) "offset" = none ∧
    qlookup (mergeQ [("limit", "50"), ("offset", "49")] query) "limit" = some "50" ∧
    qlookup (mergeQ [("limit", "50"), ("offset", "49")] query) "offset" = some "49" ∧
    (getAllTopItems pageFn query).1 =
      (pageFn (mergeQ [("limit", "49")] query)).items ++
      (pageFn (mergeQ [("limit", "50"), ("offset", "49")] query)).items := by
  refine ⟨rfl, ?_, ?_, ?_, ?_, rfl⟩
  · rw [qlookup_mergeQ _ _ _ hl]; rfl
  · rw [qlookup_mergeQ _ _ _ ho]; rfl
  · rw [qlookup_mergeQ _ _ _ hl]; rfl
  · rw [qlookup_mergeQ _ _ _ ho]; rfl

theorem getAllTopItems_two_calls_witness :
    (getAllTopItems (fun _ => (⟨[], 0, 0⟩ : Page Nat))
      [("time_range", "short_term")]).2.length = 2 := by
  have h := getAllTopItems_two_calls (fun _ => (⟨[], 0, 0⟩ : Page Nat))
    [("time_range", "short_term")] (by rfl) (by rfl)
  rw [h.1]
  rfl

/-! ## Mutation batching (src/functions.ts `chunk`, src/spotify.ts
`addPlaylistTracks` / `deletePlaylistTracks`) -/

/-- `chunk` from src/functions.ts:

```ts
export function* chunk<T>(arr: T[], n: number): Generator<T[], void> {
  for (let i = 0; i < arr.length; i += n) {
    yield arr.slice(i, i + n);
  }
}
```

The generator yields `arr.slice(i, i+n)` for `i = 0, n, 2n, …` and is fully
iterated by its callers.  The source's loop diverges for `n = 0`; it is
only ever invoked with `n = 100`, so the embedding guards `n = 0` to stay
total. -/
def chunk : List α → Nat → List (List α)
  | [], _ => []
  | _ :: _, 0 => []
  | a :: arr, n + 1 => (a :: arr).take (n + 1) :: chunk ((a :: arr).drop (n + 1)) (n + 1)
termination_by arr _ => arr.length
decreasing_by
  simp only [List.length_drop, List.length_cons]
  omega

theorem chunk_nil (n : Nat) : chunk ([] : List α) n = [] := by
  simp [chunk]

theorem chunk_succ (a : α) (arr : List α) (n : Nat) :
    chunk (a :: arr) (n + 1)
      = (a :: arr).take (n + 1) :: chunk ((a :: arr).drop (n + 1)) (n + 1) := by
  rw [chunk]

/-- Every chunk holds at most `n` items. -/
theorem chunk_le : ∀ (arr : List α) (n : Nat), ∀ c ∈ chunk arr n, c.length ≤ n := by
  intro arr n
  induction arr, n using chunk.induct with
  | case1 x => simp [chunk_nil]
  | case2 h t => simp [chunk]
  | case3 a arr n ih =>
    rw [chunk_succ]
    intro c hc
    rcases List.mem_cons.mp hc with rfl | hc
    · simp
    · exact ih c hc

/-- Concatenating the chunks restores the input: the batcher keeps the
caller-supplied order within and across batches. -/
theorem chunk_flatten : ∀ (arr : List α) (n : Nat), n ≠ 0 → (chunk arr n).flatten = arr := by
  intro arr n
  induction arr, n using chunk.induct with
  | case1 x => intro _; simp [chunk_nil]
  | case2 h t => intro h0; exact absurd rfl h0
  | case3 a arr n ih =>
    intro _
    rw [chunk_succ, List.flatten_cons, ih (Nat.succ_ne_zero n)]
    exact List.take_append_drop _ _

/-- Ceiling-division arithmetic behind `chunk_length`: removing one full
chunk of `m + 1` items lowers the chunk count by one. -/
theorem ceil_div_step (L m : Nat) (hL : 1 ≤ L) :
    (L - (m + 1) + m) / (m + 1) + 1 = (L + m) / (m + 1) := by
  rcases Nat.lt_or_ge L (m + 1) with hlt | hge
  · have h1 : L - (m + 1) = 0 := by omega
    rw [h1, Nat.zero_add, Nat.div_eq_of_lt (by omega)]
    have hle : 1 ≤ (L + m) / (m + 1) :=
      (Nat.le_div_iff_mul_le (by omega)).mpr (by omega)
    have hlt2 : (L + m) / (m + 1) < 2 :=
      (Nat.div_lt_iff_lt_mul (by omega)).mpr (by omega)
    omega
  · have h1 : L - (m + 1) + m + (m + 1) = L + m := by omega
    have h2 := Nat.add_div_right (L - (m + 1) + m) (show 0 < m + 1 by omega)
    rw [h1] at h2
    exact h2.symm

/-- The number of chunks is `⌈arr.length / n⌉`. -/
theorem chunk_length : ∀ (arr : List α) (n : Nat), n ≠ 0 →
    (chunk arr n).length = (arr.length + (n - 1)) / n := by
  intro arr n
  induction arr, n using chunk.induct with
  | case1 x =>
    intro hx
    rw [chunk_nil]
    simp only [List.length_nil, Nat.zero_add]
    exact (Nat.div_eq_of_lt (by omega)).symm
  | case2 h t => intro h0; exact absurd rfl h0
  | case3 a arr n ih =>
    intro _
    rw [chunk_succ]
    simp only [List.length_cons, ih (Nat.succ_ne_zero n), List.length_drop,
      Nat.add_sub_cancel]
    exact ceil_div_step (arr.length + 1) n (by omega)

/-- A track reference accepted by the playlist mutations: either a bare URI
string or a track object whose `uri` field is read
(`typeof track === "string" ? track : track.uri`). -/
inductive TrackRef where
  | uriStr (uri : String)
  | trackObj (uri : String)
deriving DecidableEq

/-- The URI the source extracts from a track reference. -/
def TrackRef.toUri : TrackRef → String
  | .uriStr u => u
  | .trackObj u => u

/-- The `{ id, snapshot_id }` fields destructured from the playlist argument. -/
structure PlaylistIdSnap where
  id : String
  snapshot_id : String
deriving DecidableEq

/-- The snapshot id after running the batched calls in order: `respond i b`
is the snapshot id the remote returns for the `i`-th batched call with body
`b`; the source keeps only the last response. -/
def lastSnapshot (respond : Nat → β → String) : Nat → String → List β → String
  | _, snap, [] => snap
  | i, _, b :: bs => lastSnapshot respond (i + 1) (respond i b) bs

/-- `addPlaylistTracks` from src/spotify.ts:

```ts
const chunks = chunk(tracks, 100);
let response = { snapshot_id };
if (tracks.length === 0) return response;
for (const tracks of chunks) {
  response = await fetch(PLAYLIST_TRACKS(id), { method: "POST",
    body: JSON.stringify({ uris: tracks.map(t => typeof t === "string" ? t : t.uri) }) ...);
  await sleep(100);
}
return response;
```

Returns the final snapshot id and the list of request bodies (each body the
`uris` list of one `POST`), in issue order. -/
def addPlaylistTracks (respond : Nat → List String → String)
    (pl : PlaylistIdSnap) (tracks : List TrackRef) :
    String × List (List String) :=
  let bodies := (chunk tracks 100).map (fun c => c.map TrackRef.toUri)
  if tracks.length = 0 then (pl.snapshot_id, [])
  else (lastSnapshot respond 0 pl.snapshot_id bodies, bodies)

/-- One `{ uri }` object of a `DELETE` body's `tracks` list. -/
structure UriObject where
  uri : String
deriving DecidableEq

/-- `deletePlaylistTracks` from src/spotify.ts: as `addPlaylistTracks`, but
the body is a `tracks` list of `{ uri }` objects sent with `DELETE`. -/
def deletePlaylistTracks (respond : Nat → List UriObject → String)
    (pl : PlaylistIdSnap) (tracks : List TrackRef) :
    String × List (List UriObject) :=
  let bodies := (chunk tracks 100).map (fun c => c.map (fun t => ⟨t.toUri⟩))
  if tracks.length = 0 then (pl.snapshot_id, [])
  else (lastSnapshot respond 0 pl.snapshot_id bodies, bodies)

/-- The final snapshot is the response to the last batch. -/
theorem lastSnapshot_append (respond : Nat → β → String) (b : β) :
    ∀ (bs : List β) (i : Nat) (snap : String),
      lastSnapshot respond i snap (bs ++ [b]) = respond (i + bs.length) b := by
  intro bs
  induction bs with
  | nil => intro i snap; simp [lastSnapshot]
  | cons x xs ih =>
    intro i snap
    show lastSnapshot respond (i + 1) (respond i x) (xs ++ [b])
      = respond (i + (x :: xs).length) b
    rw [ih (i + 1) (respond i x), List.length_cons]
    have hn : i + 1 + xs.length = i + (xs.length + 1) := by omega
    rw [hn]

/-- **C4** (mutation batching): for every list of `N` track references
(strings or track objects, whose URI is extracted), `addPlaylistTracks` and
`deletePlaylistTracks` issue exactly `⌈N / 100⌉` batched calls; every batch
carries at most 100 items; the references' order is preserved within and
across batches (the concatenation of the bodies is the caller's list,
mapped to URIs); an empty input issues zero calls and returns the
playlist's current snapshot id; a non-empty input returns the snapshot id
of the last batch's response. -/
theorem playlistTracks_batching (respondA : Nat → List String → String)
    (respondD : Nat → List UriObject → String)
    (pl : PlaylistIdSnap) (tracks : List TrackRef) :
    ((addPlaylistTracks respondA pl tracks).2.length = (tracks.length + 99) / 100 ∧
     (∀ b ∈ (addPlaylistTracks respondA pl tracks).2, b.length ≤ 100) ∧
     (addPlaylistTracks respondA pl tracks).2.flatten = tracks.map TrackRef.toUri ∧
     (tracks = [] → addPlaylistTracks respondA pl tracks = (pl.snapshot_id, [])) ∧
     (tracks ≠ [] → ∃ pre fin, (addPlaylistTracks respondA pl tracks).2 = pre ++ [fin] ∧
       (addPlaylistTracks respondA pl tracks).1 = respondA pre.length fin)) ∧
    ((deletePlaylistTracks respondD pl tracks).2.length = (tracks.length + 99) / 100 ∧
     (∀ b ∈ (deletePlaylistTracks respondD pl tracks).2, b.length ≤ 100) ∧
     (deletePlaylistTracks respondD pl tracks).2.flatten
        = tracks.map (fun t => ⟨t.toUri⟩) ∧
     (tracks = [] → deletePlaylistTracks respondD pl tracks = (pl.snapshot_id, [])) ∧
     (tracks ≠ [] → ∃ pre fin, (deletePlaylistTracks respondD pl tracks).2 = pre ++ [fin] ∧
       (deletePlaylistTracks respondD pl tracks).1 = respondD pre.length fin)) := by
  have main : ∀ {γ : Type} (f : TrackRef → γ) (respond : Nat → List γ → String),
      ∀ out : String × List (List γ),
        out = (if tracks.length = 0 then (pl.snapshot_id, [])
          else (lastSnapshot respond 0 pl.snapshot_id
                  ((chunk tracks 100).map (fun c => c.map f)),
                (chunk tracks 100).map (fun c => c.map f))) →
        out.2.length = (tracks.length + 99) / 100 ∧
        (∀ b ∈ out.2, b.length ≤ 100) ∧
        out.2.flatten = tracks.map f ∧
        (tracks = [] → out = (pl.snapshot_id, [])) ∧
        (tracks ≠ [] → ∃ (pre : List (List γ)) (fin : List γ), out.2 = pre ++ [fin] ∧
          out.1 = respond pre.length fin) := by
    intro γ f respond out hout
    by_cases h0 : tracks.length = 0
    · rw [if_pos h0] at hout
      have htr : tracks = [] := List.length_eq_zero.mp h0
      subst htr
      subst hout
      refine ⟨by simp, by simp, by simp, fun _ => rfl, fun h => absurd rfl h⟩
    · have htr : tracks ≠ [] := fun h => h0 (by rw [h]; rfl)
      rw [if_neg h0] at hout
      subst hout
      have hbody0 : (chunk tracks 100).map (fun c => c.map f) ≠ [] := by
        intro h
        have := chunk_flatten tracks 100 (by omega)
        rw [List.map_eq_nil_iff] at h
        rw [h] at this
        exact htr this.symm
      refine ⟨?_, ?_, ?_, fun h => absurd h htr, fun _ => ?_⟩
      · simp only [List.length_map]
        exact chunk_length tracks 100 (by omega)
      · intro b hb
        obtain ⟨c, hc, rfl⟩ := List.mem_map.mp hb
        simpa using chunk_le tracks 100 c hc
      · show ((chunk tracks 100).map (fun c => c.map f)).flatten = tracks.map f
        rw [← List.map_flatten, chunk_flatten tracks 100 (by omega)]
      · refine ⟨((chunk tracks 100).map (fun c => c.map f)).dropLast,
          ((chunk tracks 100).map (fun c => c.map f)).getLast hbody0,
          (List.dropLast_concat_getLast hbody0).symm, ?_⟩
        show lastSnapshot respond 0 pl.snapshot_id _ = _
        conv_lhs => rw [← List.dropLast_concat_getLast hbody0]
        rw [lastSnapshot_append, Nat.zero_add]
  exact ⟨main TrackRef.toUri respondA _ rfl,
    main (fun t => (⟨t.toUri⟩ : UriObject)) respondD _ rfl⟩

theorem playlistTracks_batching_witness :
    (addPlaylistTracks (fun _ _ => "snap") ⟨"pid", "s0"⟩
      (List.replicate 250 (TrackRef.uriStr "u"))).2.length = 3 := by
  have h := playlistTracks_batching (fun _ _ => "snap") (fun _ _ => "snap")
    ⟨"pid", "s0"⟩ (List.replicate 250 (TrackRef.uriStr "u"))
  rw [h.1.1]
  simp only [List.length_replicate]

/-! ## Named entities and the string comparator (src/spotify.ts) -/

/-- The `{ name, id }` shape `compareNamedEntity` reads (artists, albums,
shows are all structurally of this shape where compared). -/
structure NamedEntity where
  name : String
  id : String
deriving DecidableEq

/-- JavaScript `.toLowerCase()`, modelled character by character (a
structural rendering of `String.toLower`, kept kernel-computable). -/
def toLowerCase (s : String) : String :=
  ⟨s.data.map Char.toLower⟩

/-- The sign (`-1 / 0 / 1`) of the lexicographic comparison of two
character lists. -/
def cmpChars : List Char → List Char → Int
  | [], [] => 0
  | [], _ :: _ => -1
  | _ :: _, [] => 1
  | a :: as, b :: bs => if a < b then -1 else if b < a then 1 else cmpChars as bs

/-- `compareString` from src/spotify.ts:
`a.localeCompare(b, undefined, { sensitivity: "base" })`.
The locale-aware base-sensitivity collation is modelled as case-insensitive
code-point comparison: the sign of the lexicographic comparison of the
lowercased strings. -/
def compareString (a b : String) : Int :=
  cmpChars (toLowerCase a).data (toLowerCase b).data

/-- JavaScript `x || y` on comparator results: `y` exactly when `x` is 0. -/
def jsOrInt (x y : Int) : Int := if x ≠ 0 then x else y

/-- `compareNamedEntity` from src/spotify.ts:
`compareString(a.name, b.name) || compareString(a.id, b.id)`. -/
def compareNamedEntity (a b : NamedEntity) : Int :=
  jsOrInt (compareString a.name b.name) (compareString a.id b.id)

/-! ## Cursor pagination (src/spotify.ts `getAllFollowing`) -/

/-- A request to the following endpoint: the `limit` and the optional
`after` cursor (`getFollowing` also pins `type=artist`, which carries no
pagination content). -/
structure FollowReq where
  limit : String
  after : Option String
deriving DecidableEq

/-- The `artists` envelope of a following response: `items` and
`cursors.after` (`none` models both a null and an absent cursor). -/
structure FollowPage where
  items : List NamedEntity
  after : Option String

/-- JS truthiness of the `string | null` cursor in `while (after)`: false
for null/absent and also for the empty string. -/
def truthyCursor : Option String → Bool
  | none => false
  | some s => !(s == "")

/-- The `while (after)` loop of `getAllFollowing`, with fuel: `none` means
the loop was still running when the fuel ran out (the source's loop has no
bound of its own).  Also accumulates the issued requests. -/
def followLoop (pageFn : FollowReq → FollowPage) :
    Nat → List NamedEntity → List FollowReq → Option String →
    Option (List NamedEntity × List FollowReq)
  | 0, items, reqs, after =>
    if truthyCursor after then none else some (items, reqs)
  | fuel + 1, items, reqs, after =>
    if truthyCursor after then
      let next := pageFn ⟨"50", after⟩
      followLoop pageFn fuel (items ++ next.items) (reqs ++ [⟨"50", after⟩]) next.after
    else some (items, reqs)

/-- `getAllFollowing` from src/spotify.ts:

```ts
const { artists } = await client.getFollowing({ limit: "50" });
const { items } = artists;
let after = artists.cursors.after;
while (after) {
  const { artists: nextArtists } = await client.getFollowing({ limit: "50", after });
  items.push(...nextArtists.items);
  after = nextArtists.cursors.after;
}
return items.sort(compareNamedEntity);
```

Returns the sorted items together with the issued requests; the stable
`Array.prototype.sort` is modelled by `List.insertionSort` on
`compareNamedEntity · · ≤ 0`. -/
def getAllFollowing (pageFn : FollowReq → FollowPage) (fuel : Nat) :
    Option (List NamedEntity × List FollowReq) :=
  let first := pageFn ⟨"50", none⟩
  (followLoop pageFn fuel first.items [⟨"50", none⟩] first.after).map
    (fun r => (r.1.insertionSort (fun a b => compareNamedEntity a b ≤ 0), r.2))

/-- The remote's cursor chain starting at `after` reaches a falsy cursor
after exactly `k` further page fetches. -/
inductive Halts (pageFn : FollowReq → FollowPage) : Option String → Nat → Prop
  | done (after : Option String) (h : truthyCursor after = false) :
      Halts pageFn after 0
  | step (after : Option String) (k : Nat) (h : truthyCursor after = true)
      (next : Halts pageFn (pageFn ⟨"50", after⟩).after k) :
      Halts pageFn after (k + 1)

/-- The items of the `k` pages the loop fetches from cursor `after` on. -/
def chainItems (pageFn : FollowReq → FollowPage) :
    Option String → Nat → List NamedEntity
  | _, 0 => []
  | after, k + 1 =>
    (pageFn ⟨"50", after⟩).items ++ chainItems pageFn (pageFn ⟨"50", after⟩).after k

/-- The requests the loop issues from cursor `after` on. -/
def chainReqs (pageFn : FollowReq → FollowPage) :
    Option String → Nat → List FollowReq
  | _, 0 => []
  | after, k + 1 =>
    ⟨"50", after⟩ :: chainReqs pageFn (pageFn ⟨"50", after⟩).after k

theorem chainReqs_limit (pageFn : FollowReq → FollowPage) :
    ∀ (k : Nat) (after : Option String), ∀ r ∈ chainReqs pageFn after k,
      r.limit = "50" := by
  intro k
  induction k with
  | zero => intro after r hr; simp [chainReqs] at hr
  | succ m ih =>
    intro after r hr
    rcases List.mem_cons.mp hr with rfl | hr
    · rfl
    · exact ih _ r hr

/-- A halting cursor chain of length `k` makes the loop return, with the
chain's items appended in fetch order and one request per fetched page. -/
theorem followLoop_halts (pageFn : FollowReq → FollowPage) :
    ∀ (k : Nat) (after : Option String), Halts pageFn after k →
      ∀ (fuel : Nat), k ≤ fuel →
        ∀ (items : List NamedEntity) (reqs : List FollowReq),
          followLoop pageFn fuel items reqs after
            = some (items ++ chainItems pageFn after k,
                    reqs ++ chainReqs pageFn after k) := by
  intro k
  induction k with
  | zero =>
    intro after h fuel hf items reqs
    cases h with
    | done _ hfalse =>
      cases fuel with
      | zero => simp [followLoop, hfalse, chainItems, chainReqs]
      | succ m => simp [followLoop, hfalse, chainItems, chainReqs]
  | succ m ih =>
    intro after h fuel hf items reqs
    cases h with
    | step _ _ htrue hnext =>
      cases fuel with
      | zero => omega
      | succ f =>
        simp only [followLoop, htrue, if_true]
        rw [ih _ hnext f (by omega)]
        simp [chainItems, chainReqs]

/-- **C8** (amended): `getAllFollowing` first requests with `limit=50` and
no cursor; then, while the returned after-cursor is truthy (non-null *and*
non-empty — JS `while (after)` also stops on the empty string), it requests
with `limit=50` and that cursor, appending each response's items; for every
remote whose cursor chain reaches a falsy cursor in `k` steps it terminates
(is total given fuel `≥ k`), returning a permutation (the final
`sort(compareNamedEntity)`) of the concatenated pages, with exactly one
request per page, all at `limit=50`. -/
theorem getAllFollowing_termination (pageFn : FollowReq → FollowPage)
    (k fuel : Nat)
    (hh : Halts pageFn (pageFn ⟨"50", none⟩).after k) (hf : k ≤ fuel) :
    ∃ res : List NamedEntity × List FollowReq,
      getAllFollowing pageFn fuel = some res ∧
      res.1.length = (pageFn ⟨"50", none⟩).items.length
        + (chainItems pageFn (pageFn ⟨"50", none⟩).after k).length ∧
      res.1.Perm ((pageFn ⟨"50", none⟩).items
        ++ chainItems pageFn (pageFn ⟨"50", none⟩).after k) ∧
      res.2 = ⟨"50", none⟩ :: chainReqs pageFn (pageFn ⟨"50", none⟩).after k ∧
      (∀ r ∈ res.2, r.limit = "50") := by
  have hloop := followLoop_halts pageFn k _ hh fuel hf
    (pageFn ⟨"50", none⟩).items [⟨"50", none⟩]
  refine ⟨(((pageFn ⟨"50", none⟩).items
      ++ chainItems pageFn (pageFn ⟨"50", none⟩).after k).insertionSort
        (fun a b => compareNamedEntity a b ≤ 0),
      ⟨"50", none⟩ :: chainReqs pageFn (pageFn ⟨"50", none⟩).after k),
    ?_, ?_, ?_, ?_, ?_⟩
  · show (followLoop pageFn fuel (pageFn ⟨"50", none⟩).items [⟨"50", none⟩]
      (pageFn ⟨"50", none⟩).after).map _ = _
    rw [hloop]
    rfl
  · exact ((List.perm_insertionSort _ _).length_eq).trans (List.length_append _ _)
  · exact List.perm_insertionSort _ _
  · rfl
  · intro r hr
    rcases List.mem_cons.mp hr with rfl | hr
    · rfl
    · exact chainReqs_limit pageFn k _ r hr

/-- A remote serving a 3-page cursor chain of sizes 50, 50, 7 (cursors
`"c1"`, `"c2"`, then null). -/
def pageFn3 : FollowReq → FollowPage := fun r =>
  match r.after with
  | none => ⟨List.replicate 50 ⟨"a", "a"⟩, some "c1"⟩
  | some "c1" => ⟨List.replicate 50 ⟨"a", "a"⟩, some "c2"⟩
  | some "c2" => ⟨List.replicate 7 ⟨"a", "a"⟩, none⟩
  | some _ => ⟨[], none⟩

theorem getAllFollowing_termination_witness :
    ∃ res : List NamedEntity × List FollowReq,
      getAllFollowing pageFn3 10 = some res ∧ res.1.length = 107 := by
  obtain ⟨res, h1, h2, -, -, -⟩ := getAllFollowing_termination pageFn3 2 10
    (Halts.step _ _ (by decide)
      (Halts.step _ _ (by decide)
        (Halts.done _ (by decide))))
    (by omega)
  refine ⟨res, h1, ?_⟩
  rw [h2]
  decide

/-- A remote whose first response carries the cursor `""`. -/
def pageFnE : FollowReq → FollowPage := fun r =>
  match r.after with
  | none => ⟨[⟨"x", "1"⟩, ⟨"y", "2"⟩], some ""⟩
  | some _ => ⟨[⟨"z", "3"⟩], none⟩

/-- **C8** counterexample: a response whose after-cursor is the empty
string — non-null, so by the claim the loop should issue a further request
with that cursor — makes `getAllFollowing` stop at once (`while (after)`
tests JS truthiness): only the first request is issued and only the first
page's two items are returned, though the remote holds a third item behind
the cursor. -/
theorem getAllFollowing_empty_cursor_cex :
    (pageFnE ⟨"50", none⟩).after = some "" ∧
    (pageFnE ⟨"50", some ""⟩).items ≠ [] ∧
    getAllFollowing pageFnE 5
      = some ([⟨"x", "1"⟩, ⟨"y", "2"⟩], [⟨"50", none⟩]) := by
  refine ⟨rfl, by decide, by decide⟩

/-! ## Saved-track data model (the fields src/spotify.ts reads) -/

structure ImageObject where
  url : String
deriving DecidableEq

structure ArtistObj where
  id : String
  name : String
  spotify_url : String
deriving DecidableEq

structure Album where
  id : String
  name : String
  release_date : String
  images : List ImageObject
  spotify_url : String
deriving DecidableEq

structure TrackObj where
  id : String
  name : String
  uri : String
  popularity : Int
  duration_ms : Int
  explicit : Bool
  preview_url : Option String
  spotify_url : String
  disc_number : Int
  track_number : Int
  album : Album
  artists : List ArtistObj
deriving DecidableEq

/-- A `SpotifyApi.SavedTrackObject`.  `added_at` is an ISO-8601 string in
the source, compared only through `new Date(...).getTime()`; the embedding
carries that epoch-millisecond value directly. -/
structure SavedTrack where
  added_at : Int
  track : TrackObj
deriving DecidableEq

/-- The `{ name, id }` view of an artist, as `compareNamedEntity` reads it. -/
def ArtistObj.named (a : ArtistObj) : NamedEntity := ⟨a.name, a.id⟩

/-- The `{ name, id }` view of an album, as `compareNamedEntity` reads it. -/
def Album.named (al : Album) : NamedEntity := ⟨al.name, al.id⟩

/-- `compareSaved`/`compareDateString` from src/spotify.ts:
`new Date(b.added_at).getTime() - new Date(a.added_at).getTime()` —
descending by saved timestamp. -/
def compareSaved (a b : SavedTrack) : Int := b.added_at - a.added_at

/-- `compareTrack` from src/spotify.ts:

```ts
compareSaved(a, b) ||
compareNamedEntity(a.track.artists[0], b.track.artists[0]) ||
compareNamedEntity(a.track.album, b.track.album) ||
a.track.disc_number - b.track.disc_number ||
a.track.track_number - b.track.track_number
```

`||` short-circuits, so `artists[0]` is only read on a timestamp tie; if a
first artist is then missing, `compareNamedEntity` dereferences `undefined`
and throws a `TypeError` — the embedding returns `none` there. -/
def compareTrackE (a b : SavedTrack) : Option Int :=
  let byDate := compareSaved a b
  if byDate ≠ 0 then some byDate
  else
    match a.track.artists.head?, b.track.artists.head? with
    | some x, some y =>
      some (jsOrInt (compareNamedEntity x.named y.named)
        (jsOrInt (compareNamedEntity a.track.album.named b.track.album.named)
          (jsOrInt (a.track.disc_number - b.track.disc_number)
            (a.track.track_number - b.track.track_number))))
    | _, _ => none

/-- The first artist, with an empty placeholder when the list is empty. -/
def headArtist (t : SavedTrack) : NamedEntity :=
  ((t.track.artists.head?).map ArtistObj.named).getD ⟨"", ""⟩

/-- Total completion of `compareTrackE`, modelling what
`Array.prototype.sort(compareTrack)` computes; it agrees with
`compareTrackE` wherever that is defined (`compareTrackE_eq_total`). -/
def compareTrackT (a b : SavedTrack) : Int :=
  jsOrInt (compareSaved a b)
    (jsOrInt (compareNamedEntity (headArtist a) (headArtist b))
      (jsOrInt (compareNamedEntity a.track.album.named b.track.album.named)
        (jsOrInt (a.track.disc_number - b.track.disc_number)
          (a.track.track_number - b.track.track_number))))

/-- The order `sort(compareTrack)` sorts by. -/
def trackLE (a b : SavedTrack) : Prop := compareTrackT a b ≤ 0

instance : DecidableRel trackLE :=
  fun a b => inferInstanceAs (Decidable (compareTrackT a b ≤ 0))

/-- `.sort(compareTrack)` of `getAllSavedTracks`: `Array.prototype.sort` is
stable, modelled by a stable insertion sort. -/
def sortTracks (l : List SavedTrack) : List SavedTrack :=
  l.insertionSort trackLE

theorem compareTrackE_eq_total (a b : SavedTrack)
    (ha : a.track.artists ≠ []) (hb : b.track.artists ≠ []) :
    compareTrackE a b = some (compareTrackT a b) := by
  obtain ⟨x, xs, hx⟩ := List.exists_cons_of_ne_nil ha
  obtain ⟨y, ys, hy⟩ := List.exists_cons_of_ne_nil hb
  unfold compareTrackE compareTrackT headArtist
  rw [hx, hy]
  by_cases hd : compareSaved a b ≠ 0
  · simp [hd, jsOrInt]
  · simp only [hd, if_false, List.head?_cons, Option.map_some, Option.getD_some]
    simp only [jsOrInt, hd, if_false]
    push_neg at hd
    simp [hd, jsOrInt]

/-! ## The comparator chain is a total preorder -/

/-- The shape every comparator building block shares: a comparator induced
by a key into a linear order.  `neg` is sign-antisymmetry, `congrL` says
0-comparing elements are indistinguishable on the left, `trans` is
transitivity of the strict part. -/
structure IsKeyedCmp {α : Type} (f : α → α → Int) : Prop where
  neg : ∀ a b, f b a = -f a b
  congrL : ∀ a b, f a b = 0 → ∀ c, f a c = f b c
  trans : ∀ a b c, f a b < 0 → f b c < 0 → f a c < 0

theorem IsKeyedCmp.congrR {α : Type} {f : α → α → Int} (h : IsKeyedCmp f)
    {a b : α} (hab : f a b = 0) (c : α) : f c a = f c b := by
  calc f c a = -f a c := h.neg a c
  _ = -f b c := by rw [h.congrL a b hab c]
  _ = f c b := (h.neg b c).symm

theorem isKeyedCmp_comap {α β : Type} {f : β → β → Int} (h : IsKeyedCmp f)
    (g : α → β) : IsKeyedCmp (fun a b => f (g a) (g b)) := by
  constructor
  · intro a b; exact h.neg (g a) (g b)
  · intro a b hab c; exact h.congrL (g a) (g b) hab (g c)
  · intro a b c h1 h2; exact h.trans (g a) (g b) (g c) h1 h2

theorem jsOrInt_ne {x y : Int} (h : x ≠ 0) : jsOrInt x y = x := if_pos h

theorem jsOrInt_zero {x y : Int} (h : x = 0) : jsOrInt x y = y := by
  simp [jsOrInt, h]

theorem jsOrInt_neg_iff {x y : Int} :
    jsOrInt x y < 0 ↔ x < 0 ∨ (x = 0 ∧ y < 0) := by
  unfold jsOrInt
  split_ifs with h
  · omega
  · omega

theorem jsOrInt_eq_zero_iff {x y : Int} :
    jsOrInt x y = 0 ↔ x = 0 ∧ y = 0 := by
  unfold jsOrInt
  split_ifs with h
  · omega
  · omega

/-- JS `||`-chaining preserves the keyed-comparator laws (lexicographic
combination of total preorders). -/
theorem isKeyedCmp_jsOr {α : Type} {f g : α → α → Int}
    (hf : IsKeyedCmp f) (hg : IsKeyedCmp g) :
    IsKeyedCmp (fun a b => jsOrInt (f a b) (g a b)) := by
  constructor
  · intro a b
    by_cases h : f a b = 0
    · have hba : f b a = 0 := by rw [hf.neg a b, h]; rfl
      rw [jsOrInt_zero h, jsOrInt_zero hba, hg.neg a b]
    · have hba : f b a ≠ 0 := by rw [hf.neg a b]; simpa using h
      rw [jsOrInt_ne h, jsOrInt_ne hba, hf.neg a b]
  · intro a b hab c
    obtain ⟨hf0, hg0⟩ := jsOrInt_eq_zero_iff.mp hab
    rw [hf.congrL a b hf0 c, hg.congrL a b hg0 c]
  · intro a b c hab hbc
    rw [jsOrInt_neg_iff] at hab hbc ⊢
    rcases hab with hab | ⟨hab0, hab1⟩ <;> rcases hbc with hbc | ⟨hbc0, hbc1⟩
    · exact Or.inl (hf.trans a b c hab hbc)
    · exact Or.inl (by rw [hf.congrR hbc0 a] at hab; exact hab)
    · exact Or.inl (by rw [← hf.congrL a b hab0 c] at hbc; exact hbc)
    · refine Or.inr ⟨by rw [hf.congrL a b hab0 c]; exact hbc0, ?_⟩
      exact hg.trans a b c hab1 hbc1

theorem cmpChars_neg : ∀ x y : List Char, cmpChars y x = -cmpChars x y := by
  intro x
  induction x with
  | nil => intro y; cases y <;> simp [cmpChars]
  | cons a as ih =>
    intro y
    cases y with
    | nil => simp [cmpChars]
    | cons b bs =>
      simp only [cmpChars]
      rcases lt_trichotomy a b with h | h | h
      · simp [h, lt_asymm h]
      · subst h
        simp only [lt_irrefl, if_false]
        exact ih bs
      · simp [h, lt_asymm h]

theorem cmpChars_eq_zero : ∀ x y : List Char, cmpChars x y = 0 → x = y := by
  intro x
  induction x with
  | nil => intro y h; cases y with
    | nil => rfl
    | cons b bs => simp [cmpChars] at h
  | cons a as ih =>
    intro y h
    cases y with
    | nil => simp [cmpChars] at h
    | cons b bs =>
      simp only [cmpChars] at h
      split_ifs at h with h1 h2 <;>
        first
        | omega
        | (have hab : a = b := le_antisymm (not_lt.mp h2) (not_lt.mp h1)
           rw [hab, ih bs h])

theorem cmpChars_trans :
    ∀ x y z : List Char, cmpChars x y < 0 → cmpChars y z < 0 → cmpChars x z < 0 := by
  intro x
  induction x with
  | nil =>
    intro y z hxy hyz
    cases y with
    | nil => simp [cmpChars] at hxy
    | cons b bs =>
      cases z with
      | nil => simp [cmpChars] at hyz
      | cons c cs => simp [cmpChars]
  | cons a as ih =>
    intro y z hxy hyz
    cases y with
    | nil => simp [cmpChars] at hxy
    | cons b bs =>
      cases z with
      | nil => simp [cmpChars] at hyz
      | cons c cs =>
        simp only [cmpChars] at hxy hyz ⊢
        rcases lt_trichotomy a b with hab | rfl | hab
        · rcases lt_trichotomy b c with hbc | rfl | hbc
          · rw [if_pos (lt_trans hab hbc)]; omega
          · rw [if_pos hab]; omega
          · rw [if_neg (lt_asymm hbc), if_pos hbc] at hyz; omega
        · rcases lt_trichotomy a c with hac | rfl | hac
          · rw [if_pos hac]; omega
          · simp only [lt_self_iff_false, if_false] at hxy hyz ⊢
            exact ih bs cs hxy hyz
          · rw [if_neg (lt_asymm hac), if_pos hac] at hyz; omega
        · rw [if_neg (lt_asymm hab), if_pos hab] at hxy; omega

theorem isKeyedCmp_cmpChars : IsKeyedCmp (fun x y : List Char => cmpChars x y) := by
  constructor
  · exact cmpChars_neg
  · intro x y hxy c
    rw [cmpChars_eq_zero x y hxy]
  · exact cmpChars_trans

theorem isKeyedCmp_compareString : IsKeyedCmp compareString :=
  isKeyedCmp_comap isKeyedCmp_cmpChars (fun s => (toLowerCase s).data)

theorem isKeyedCmp_compareNamedEntity : IsKeyedCmp compareNamedEntity :=
  isKeyedCmp_jsOr
    (isKeyedCmp_comap isKeyedCmp_compareString NamedEntity.name)
    (isKeyedCmp_comap isKeyedCmp_compareString NamedEntity.id)

theorem isKeyedCmp_intKey {α : Type} (g : α → Int) :
    IsKeyedCmp (fun a b => g a - g b) := by
  constructor
  · intro a b; omega
  · intro a b hab c; omega
  · intro a b c h1 h2; omega

theorem isKeyedCmp_compareSaved : IsKeyedCmp compareSaved := by
  constructor
  · intro a b; unfold compareSaved; omega
  · intro a b hab c; unfold compareSaved at *; omega
  · intro a b c h1 h2; unfold compareSaved at *; omega

theorem isKeyedCmp_compareTrackT : IsKeyedCmp compareTrackT :=
  isKeyedCmp_jsOr isKeyedCmp_compareSaved
    (isKeyedCmp_jsOr (isKeyedCmp_comap isKeyedCmp_compareNamedEntity headArtist)
      (isKeyedCmp_jsOr
        (isKeyedCmp_comap isKeyedCmp_compareNamedEntity (fun t => t.track.album.named))
        (isKeyedCmp_jsOr (isKeyedCmp_intKey (fun t => t.track.disc_number))
          (isKeyedCmp_intKey (fun t => t.track.track_number)))))

instance : IsTotal SavedTrack trackLE := by
  constructor
  intro a b
  have h := isKeyedCmp_compareTrackT.neg a b
  unfold trackLE
  omega

instance : IsTrans SavedTrack trackLE := by
  constructor
  intro a b c h1 h2
  unfold trackLE at h1 h2 ⊢
  rcases lt_or_eq_of_le h1 with h1' | h1'
  · rcases lt_or_eq_of_le h2 with h2' | h2'
    · exact le_of_lt (isKeyedCmp_compareTrackT.trans a b c h1' h2')
    · rw [isKeyedCmp_compareTrackT.congrR h2' a] at h1'
      exact le_of_lt h1'
  · rw [isKeyedCmp_compareTrackT.congrL a b h1' c]
    exact h2

/-- Two sorted permutations of each other are equal, given antisymmetry on
the members (a local rendering of `List.eq_of_perm_of_sorted`, whose
instance-level antisymmetry would be too strong here). -/
theorem eq_of_perm_of_sorted_mem {α : Type} {r : α → α → Prop} :
    ∀ {l₁ l₂ : List α}, l₁.Perm l₂ → l₁.Sorted r → l₂.Sorted r →
      (∀ a ∈ l₁, ∀ b ∈ l₁, r a b → r b a → a = b) → l₁ = l₂ := by
  intro l₁
  induction l₁ with
  | nil =>
    intro l₂ hp _ _ _
    exact (hp.symm.eq_nil).symm
  | cons a t ih =>
    intro l₂ hp hs₁ hs₂ hanti
    cases l₂ with
    | nil => exact absurd hp.eq_nil (by simp)
    | cons b t₂ =>
      have hab : a = b := by
        by_cases h : a = b
        · exact h
        · have hbmem : b ∈ a :: t := hp.mem_iff.mpr (List.mem_cons_self b t₂)
          have hbt : b ∈ t := by
            rcases List.mem_cons.mp hbmem with h' | h'
            · exact absurd h'.symm h
            · exact h'
          have hamem : a ∈ b :: t₂ := hp.mem_iff.mp (List.mem_cons_self a t)
          have hat : a ∈ t₂ := by
            rcases List.mem_cons.mp hamem with h' | h'
            · exact absurd h' h
            · exact h'
          have hrab : r a b := (List.sorted_cons.mp hs₁).1 b hbt
          have hrba : r b a := (List.sorted_cons.mp hs₂).1 a hat
          exact hanti a (List.mem_cons_self a t) b hbmem hrab hrba
      subst hab
      have hpt : t.Perm t₂ := hp.cons_inv
      rw [ih hpt (List.sorted_cons.mp hs₁).2 (List.sorted_cons.mp hs₂).2
        (fun x hx y hy h1 h2 =>
          hanti x (List.mem_cons_of_mem a hx) y (List.mem_cons_of_mem a hy) h1 h2)]

/-- Sorting with the track comparator is deterministic on collections whose
distinct members never compare equal: any two permutations sort to the same
output. -/
theorem sortTracks_deterministic (l₁ l₂ : List SavedTrack) (hp : l₁.Perm l₂)
    (hsep : ∀ a ∈ l₁, ∀ b ∈ l₁, compareTrackT a b = 0 → a = b) :
    sortTracks l₁ = sortTracks l₂ := by
  apply eq_of_perm_of_sorted_mem (r := trackLE)
  · exact (List.perm_insertionSort _ l₁).trans
      (hp.trans (List.perm_insertionSort _ l₂).symm)
  · exact List.sorted_insertionSort _ l₁
  · exact List.sorted_insertionSort _ l₂
  · intro a ha b hb h1 h2
    have ha' : a ∈ l₁ := (List.perm_insertionSort _ l₁).mem_iff.mp ha
    have hb' : b ∈ l₁ := (List.perm_insertionSort _ l₁).mem_iff.mp hb
    apply hsep a ha' b hb'
    have hneg := isKeyedCmp_compareTrackT.neg a b
    unfold trackLE at h1 h2
    omega

/-- Rewriting `compareTrackE` on a timestamp tie with both first artists
present. -/
theorem compareTrackE_tie (a b : SavedTrack) (x y : ArtistObj)
    (hd : compareSaved a b = 0)
    (hx : a.track.artists.head? = some x) (hy : b.track.artists.head? = some y) :
    compareTrackE a b =
      some (jsOrInt (compareNamedEntity x.named y.named)
        (jsOrInt (compareNamedEntity a.track.album.named b.track.album.named)
          (jsOrInt (a.track.disc_number - b.track.disc_number)
            (a.track.track_number - b.track.track_number)))) := by
  unfold compareTrackE
  rw [hx, hy]
  simp [hd]

/-- **C7** (amended): the saved-tracks comparator orders by saved timestamp
descending and, on ties, by first-listed artist name (case-insensitive),
then first-artist id, then album name, then album id, then disc number
ascending, then track number ascending (the source's `compareNamedEntity`
compares name *and id* for the artist and for the album); and sorting with
this comparator is deterministic — identical output for any two
permutations — for every collection in which distinct tracks never compare
equal (tracks equal on all compared keys keep their input order, the sort
being stable). -/
theorem compareTrack_chain_and_determinism :
    (∀ a b : SavedTrack, compareSaved a b ≠ 0 →
      compareTrackE a b = some (compareSaved a b)) ∧
    (∀ a b : SavedTrack, ∀ x y : ArtistObj, compareSaved a b = 0 →
      a.track.artists.head? = some x → b.track.artists.head? = some y →
      compareString x.name y.name ≠ 0 →
      compareTrackE a b = some (compareString x.name y.name)) ∧
    (∀ a b : SavedTrack, ∀ x y : ArtistObj, compareSaved a b = 0 →
      a.track.artists.head? = some x → b.track.artists.head? = some y →
      compareString x.name y.name = 0 → compareString x.id y.id ≠ 0 →
      compareTrackE a b = some (compareString x.id y.id)) ∧
    (∀ a b : SavedTrack, ∀ x y : ArtistObj, compareSaved a b = 0 →
      a.track.artists.head? = some x → b.track.artists.head? = some y →
      compareNamedEntity x.named y.named = 0 →
      compareString a.track.album.name b.track.album.name ≠ 0 →
      compareTrackE a b = some (compareString a.track.album.name b.track.album.name)) ∧
    (∀ a b : SavedTrack, ∀ x y : ArtistObj, compareSaved a b = 0 →
      a.track.artists.head? = some x → b.track.artists.head? = some y →
      compareNamedEntity x.named y.named = 0 →
      compareString a.track.album.name b.track.album.name = 0 →
      compareString a.track.album.id b.track.album.id ≠ 0 →
      compareTrackE a b = some (compareString a.track.album.id b.track.album.id)) ∧
    (∀ a b : SavedTrack, ∀ x y : ArtistObj, compareSaved a b = 0 →
      a.track.artists.head? = some x → b.track.artists.head? = some y →
      compareNamedEntity x.named y.named = 0 →
      compareNamedEntity a.track.album.named b.track.album.named = 0 →
      a.track.disc_number ≠ b.track.disc_number →
      compareTrackE a b = some (a.track.disc_number - b.track.disc_number)) ∧
    (∀ a b : SavedTrack, ∀ x y : ArtistObj, compareSaved a b = 0 →
      a.track.artists.head? = some x → b.track.artists.head? = some y →
      compareNamedEntity x.named y.named = 0 →
      compareNamedEntity a.track.album.named b.track.album.named = 0 →
      a.track.disc_number = b.track.disc_number →
      compareTrackE a b = some (a.track.track_number - b.track.track_number)) ∧
    (∀ l₁ l₂ : List SavedTrack, l₁.Perm l₂ →
      (∀ a ∈ l₁, ∀ b ∈ l₁, compareTrackT a b = 0 → a = b) →
      sortTracks l₁ = sortTracks l₂) := by
  refine ⟨?_, ?_, ?_, ?_, ?_, ?_, ?_, sortTracks_deterministic⟩
  · intro a b hd
    unfold compareTrackE
    simp [hd]
  · intro a b x y hd hx hy hname
    rw [compareTrackE_tie a b x y hd hx hy]
    unfold compareNamedEntity
    simp only [ArtistObj.named, Album.named]
    rw [jsOrInt_ne hname, jsOrInt_ne hname]
  · intro a b x y hd hx hy hname hid
    rw [compareTrackE_tie a b x y hd hx hy]
    unfold compareNamedEntity
    simp only [ArtistObj.named, Album.named]
    rw [jsOrInt_zero hname, jsOrInt_ne hid]
  · intro a b x y hd hx hy hart halb
    rw [compareTrackE_tie a b x y hd hx hy, jsOrInt_zero hart]
    unfold compareNamedEntity
    simp only [ArtistObj.named, Album.named]
    rw [jsOrInt_ne halb, jsOrInt_ne halb]
  · intro a b x y hd hx hy hart halbname halbid
    rw [compareTrackE_tie a b x y hd hx hy, jsOrInt_zero hart]
    unfold compareNamedEntity
    simp only [ArtistObj.named, Album.named]
    rw [jsOrInt_zero halbname, jsOrInt_ne halbid]
  · intro a b x y hd hx hy hart halb hdisc
    rw [compareTrackE_tie a b x y hd hx hy, jsOrInt_zero hart, jsOrInt_zero halb]
    rw [jsOrInt_ne (by omega)]
  · intro a b x y hd hx hy hart halb hdisc
    rw [compareTrackE_tie a b x y hd hx hy, jsOrInt_zero hart, jsOrInt_zero halb]
    rw [jsOrInt_zero (by omega)]

/-- A saved track with the given compared fields; everything the comparator
chain and `simplifySavedTrack` do not distinguish is fixed. -/
def mkSaved (added : Int) (artists : List ArtistObj)
    (albumName albumId : String) (disc tn : Int) (trackName : String) :
    SavedTrack where
  added_at := added
  track :=
    { id := trackName
      name := trackName
      uri := String.append "spotify:track:" trackName
      popularity := 0
      duration_ms := 0
      explicit := false
      preview_url := none
      spotify_url := ""
      disc_number := disc
      track_number := tn
      album := { id := albumId, name := albumName, release_date := "",
                 images := [⟨""⟩], spotify_url := "" }
      artists := artists }

/-- Tied timestamps, equal artist names, different artist ids, album names
`"A" < "B"`. -/
def cexTrackA : SavedTrack := mkSaved 0 [⟨"b", "X", ""⟩] "A" "1" 1 1 "One"

def cexTrackB : SavedTrack := mkSaved 0 [⟨"a", "X", ""⟩] "B" "2" 1 1 "Two"

/-- Two distinct tracks agreeing on every compared key (they differ only in
the track name, which the comparator never reads). -/
def cexTrackU : SavedTrack := mkSaved 5 [⟨"z", "Z", ""⟩] "C" "3" 1 1 "One"

def cexTrackV : SavedTrack := mkSaved 5 [⟨"z", "Z", ""⟩] "C" "3" 1 1 "Two"

/-- **C7** counterexample.  First: with tied timestamps and equal
(case-insensitive) first-artist names, the claim orders by album name —
here `"A"` before `"B"`, a negative comparator value — but the source
breaks the tie on the artist *id* first and returns `1`.  Second: two
permutations of the same two-element collection (two distinct tracks that
compare equal) sort to different outputs, so the claimed unconditional
permutation-determinism also fails. -/
theorem compareTrack_chain_cex :
    compareSaved cexTrackA cexTrackB = 0 ∧
    (cexTrackA.track.artists.map ArtistObj.name = ["X"] ∧
      cexTrackB.track.artists.map ArtistObj.name = ["X"]) ∧
    cexTrackA.track.album.name = "A" ∧ cexTrackB.track.album.name = "B" ∧
    compareString "A" "B" = -1 ∧
    compareTrackE cexTrackA cexTrackB = some 1 ∧
    cexTrackU ≠ cexTrackV ∧
    List.Perm [cexTrackU, cexTrackV] [cexTrackV, cexTrackU] ∧
    sortTracks [cexTrackU, cexTrackV] ≠ sortTracks [cexTrackV, cexTrackU] := by
  refine ⟨by decide, ⟨by decide, by decide⟩, by decide, by decide, by decide,
    by decide, by decide, List.Perm.swap cexTrackV cexTrackU [], by decide⟩

/-! ## `simplifySavedTrack` (src/spotify.ts) -/

structure ArtistSimplified where
  id : String
  name : String
  url : String
deriving DecidableEq

structure AlbumSimplified where
  id : String
  name : String
  release_date : String
  image_url : String
  url : String
deriving DecidableEq

structure SavedTrackSimplified where
  id : String
  name : String
  added_at : Int
  popularity : Int
  duration_ms : Int
  explicit : Bool
  url : String
  preview_url : Option String
  album : AlbumSimplified
  artists : List ArtistSimplified
deriving DecidableEq

/-- `simplifySavedTrack` from src/spotify.ts.  Its only indexed access is
`saved.track.album.images[0].url` — reading `.url` of `undefined` throws on
an empty images list, modelled by `none`; the artists list is mapped, never
indexed. -/
def simplifySavedTrack (saved : SavedTrack) : Option SavedTrackSimplified :=
  (saved.track.album.images.head?).map fun img =>
    { id := saved.track.id
      name := saved.track.name
      added_at := saved.added_at
      popularity := saved.track.popularity
      duration_ms := saved.track.duration_ms
      explicit := saved.track.explicit
      url := saved.track.spotify_url
      preview_url := saved.track.preview_url
      album := { id := saved.track.album.id
                 name := saved.track.album.name
                 release_date := saved.track.album.release_date
                 image_url := img.url
                 url := saved.track.album.spotify_url }
      artists := saved.track.artists.map fun a => ⟨a.id, a.name, a.spotify_url⟩ }

/-- **C10** (amended): `simplifySavedTrack` unconditionally reads the first
element of the album's *images* list only (it maps the artists list, never
indexing it): it is defined exactly when the images list is non-empty.
`compareTrack` reads both tracks' first artists only on a saved-timestamp
tie: it is defined for all pairs with non-empty artists lists, it is
defined whatever the artists lists whenever the timestamps differ, and a
timestamp tie with an empty artists list makes it undefined. -/
theorem simplify_compare_partiality :
    (∀ t : SavedTrack, t.track.album.images ≠ [] →
      (simplifySavedTrack t).isSome = true) ∧
    (∀ t : SavedTrack, t.track.album.images = [] → simplifySavedTrack t = none) ∧
    (∀ a b : SavedTrack, a.track.artists ≠ [] → b.track.artists ≠ [] →
      (compareTrackE a b).isSome = true) ∧
    (∀ a b : SavedTrack, compareSaved a b ≠ 0 →
      compareTrackE a b = some (compareSaved a b)) ∧
    (∀ a b : SavedTrack, compareSaved a b = 0 → a.track.artists = [] →
      compareTrackE a b = none) := by
  refine ⟨?_, ?_, ?_, ?_, ?_⟩
  · intro t ht
    obtain ⟨i, is, hi⟩ := List.exists_cons_of_ne_nil ht
    unfold simplifySavedTrack
    rw [hi]
    rfl
  · intro t ht
    unfold simplifySavedTrack
    rw [ht]
    rfl
  · intro a b ha hb
    rw [compareTrackE_eq_total a b ha hb]
    rfl
  · intro a b hd
    unfold compareTrackE
    simp [hd]
  · intro a b hd ha
    unfold compareTrackE
    rw [ha]
    simp [hd]

/-- A saved track with an empty artists list (and a non-empty images
list), and a partner saved at a different timestamp. -/
def cexNoArtist : SavedTrack := mkSaved 9 [] "Al" "al" 1 1 "Solo"

def cexOtherDate : SavedTrack := mkSaved 3 [⟨"q", "Q", ""⟩] "Bl" "bl" 1 1 "Other"

/-- **C10** counterexample: a saved track with an *empty artists list* is
simplified just fine (`simplifySavedTrack` never reads `artists[0]`), and
`compareTrack` on that track is also defined whenever the timestamps
differ (`||` short-circuits before the artist access) — so neither helper
"unconditionally reads the first artist", and an empty artists list does
not make these operations undefined. -/
theorem simplify_compare_partiality_cex :
    cexNoArtist.track.artists = [] ∧
    (simplifySavedTrack cexNoArtist).isSome = true ∧
    compareSaved cexNoArtist cexOtherDate ≠ 0 ∧
    compareTrackE cexNoArtist cexOtherDate = some (-6) := by
  refine ⟨by decide, by decide, by decide, by decide⟩

/-! ## Track URI sets and the playlist reconciler (src/main.ts,
src/functions.ts) -/

/-- JS `Set` insertion: deduplicating, insertion-ordered. -/
def jsSetInsert {α : Type} [DecidableEq α] (s : List α) (x : α) : List α :=
  if x ∈ s then s else s ++ [x]

/-- `new Set(l)`: the elements of `l` in first-occurrence order. -/
def jsSetOfList {α : Type} [DecidableEq α] (l : List α) : List α :=
  l.foldl jsSetInsert []

/-- `difference` from src/functions.ts:

```ts
const _difference = new Set(setA);
for (const elem of setB) { _difference.delete(elem); }
return _difference;
``` -/
def difference {α : Type} [DecidableEq α] (setA setB : List α) : List α :=
  setB.foldl (fun s x => s.filter (fun y => y ≠ x)) setA

theorem mem_jsSetOfList {α : Type} [DecidableEq α] (l : List α) (u : α) :
    u ∈ jsSetOfList l ↔ u ∈ l := by
  have main : ∀ (l acc : List α), u ∈ l.foldl jsSetInsert acc ↔ u ∈ acc ∨ u ∈ l := by
    intro l
    induction l with
    | nil => intro acc; simp
    | cons x xs ih =>
      intro acc
      rw [List.foldl_cons, ih]
      unfold jsSetInsert
      by_cases hx : x ∈ acc
      · rw [if_pos hx]
        constructor
        · rintro (h | h)
          · exact Or.inl h
          · exact Or.inr (List.mem_cons_of_mem x h)
        · rintro (h | h)
          · exact Or.inl h
          · rcases List.mem_cons.mp h with rfl | h
            · exact Or.inl hx
            · exact Or.inr h
      · rw [if_neg hx]
        simp only [List.mem_append, List.mem_singleton, List.mem_cons]
        tauto
  rw [jsSetOfList, main]
  simp

theorem mem_difference {α : Type} [DecidableEq α] (setA setB : List α) (u : α) :
    u ∈ difference setA setB ↔ u ∈ setA ∧ u ∉ setB := by
  have main : ∀ (setB setA : List α),
      u ∈ setB.foldl (fun s x => s.filter (fun y => y ≠ x)) setA ↔
        u ∈ setA ∧ u ∉ setB := by
    intro setB
    induction setB with
    | nil => intro setA; simp
    | cons x xs ih =>
      intro setA
      rw [List.foldl_cons, ih]
      simp only [List.mem_filter, List.mem_cons, decide_eq_true_eq]
      constructor
      · rintro ⟨⟨h1, h2⟩, h3⟩
        exact ⟨h1, by rintro (rfl | h) <;> [exact h2 rfl; exact h3 h]⟩
      · rintro ⟨h1, h2⟩
        exact ⟨⟨h1, fun he => h2 (Or.inl he)⟩, fun h => h2 (Or.inr h)⟩
  exact main setB setA

/-- One element of a mirror playlist's `tracks` array: its `track` is null
for unavailable tracks; the reconciler reads only the `uri`. -/
structure PlaylistTrack where
  track : Option TrackObj
deriving DecidableEq

/-- `new Set(tracks.map(({ track: { uri } }) => uri))` from src/main.ts:
the desired set. -/
def savedTrackUris (tracks : List SavedTrack) : List String :=
  jsSetOfList (tracks.map (fun s => s.track.uri))

/-- `new Set(full.tracks.filter(({ track }) => !!track).map(({ track }) =>
track?.uri))` from src/main.ts: the current set, null tracks filtered out
first (the `getD ""` default is unreachable after that filter). -/
def playlistTrackUris (pts : List PlaylistTrack) : List String :=
  jsSetOfList ((pts.filter (fun pt => pt.track.isSome)).map
    (fun pt => (pt.track.map TrackObj.uri).getD ""))

/-- A batched playlist mutation, as the reconciler issues it. -/
inductive MutationCall where
  | removeCall (uris : List String)
  | addCall (uris : List String)
deriving DecidableEq

/-- The mirror-exists branch of `main()` (src/main.ts): compute
`deletedTrackUris = difference(playlistTrackUris, savedTrackUris)` and
issue one delete call with exactly those URIs iff non-empty
(`if (deletedTrackUris.size)`); then compute
`addedTrackUris = difference(savedTrackUris, playlistTrackUris)` and issue
one add call iff non-empty.  Returned as the ordered list of issued
calls. -/
def reconcileMirror (savedUris playlistUris : List String) : List MutationCall :=
  let deletedTrackUris := difference playlistUris savedUris
  let removes := if deletedTrackUris.length ≠ 0
    then [MutationCall.removeCall deletedTrackUris] else []
  let addedTrackUris := difference savedUris playlistUris
  removes ++ (if addedTrackUris.length ≠ 0
    then [MutationCall.addCall addedTrackUris] else [])

theorem mem_savedTrackUris (tracks : List SavedTrack) (u : String) :
    u ∈ savedTrackUris tracks ↔ ∃ s ∈ tracks, s.track.uri = u := by
  unfold savedTrackUris
  rw [mem_jsSetOfList]
  simp

theorem mem_playlistTrackUris (pts : List PlaylistTrack) (u : String) :
    u ∈ playlistTrackUris pts ↔ ∃ pt ∈ pts, pt.track.map TrackObj.uri = some u := by
  unfold playlistTrackUris
  rw [mem_jsSetOfList]
  simp only [List.mem_map, List.mem_filter]
  constructor
  · rintro ⟨pt, ⟨hmem, hsome⟩, hval⟩
    refine ⟨pt, hmem, ?_⟩
    obtain ⟨t, ht⟩ := Option.isSome_iff_exists.mp hsome
    rw [ht] at hval ⊢
    simpa using hval
  · rintro ⟨pt, hmem, hval⟩
    cases ht : pt.track with
    | none => rw [ht] at hval; simp at hval
    | some t =>
      rw [ht] at hval
      refine ⟨pt, ⟨hmem, by rw [ht]; rfl⟩, ?_⟩
      rw [ht]
      simpa using hval

/-- **C2** (reconciliation minimality): with a mirror candidate present,
`removable` is exactly the set of URIs of the mirror's non-null tracks that
are no longer saved, `addable` exactly the saved URIs absent from the
mirror; the reconciler issues one remove call carrying exactly `removable`
iff it is non-empty, then one add call carrying exactly `addable` iff it is
non-empty — the remove, when issued, precedes the add — and equal sets
issue no call at all. -/
theorem reconcileMirror_minimal (saved : List SavedTrack)
    (pts : List PlaylistTrack) :
    (∀ u, u ∈ difference (playlistTrackUris pts) (savedTrackUris saved) ↔
      ((∃ pt ∈ pts, pt.track.map TrackObj.uri = some u) ∧
        ¬ ∃ s ∈ saved, s.track.uri = u)) ∧
    (∀ u, u ∈ difference (savedTrackUris saved) (playlistTrackUris pts) ↔
      ((∃ s ∈ saved, s.track.uri = u) ∧
        ¬ ∃ pt ∈ pts, pt.track.map TrackObj.uri = some u)) ∧
    reconcileMirror (savedTrackUris saved) (playlistTrackUris pts) =
      (if difference (playlistTrackUris pts) (savedTrackUris saved) = [] then []
       else [MutationCall.removeCall
        (difference (playlistTrackUris pts) (savedTrackUris saved))]) ++
      (if difference (savedTrackUris saved) (playlistTrackUris pts) = [] then []
       else [MutationCall.addCall
        (difference (savedTrackUris saved) (playlistTrackUris pts))]) ∧
    ((∀ u, (∃ pt ∈ pts, pt.track.map TrackObj.uri = some u) ↔
        (∃ s ∈ saved, s.track.uri = u)) →
      reconcileMirror (savedTrackUris saved) (playlistTrackUris pts) = []) := by
  refine ⟨?_, ?_, ?_, ?_⟩
  · intro u
    rw [mem_difference, mem_playlistTrackUris, mem_savedTrackUris]
  · intro u
    rw [mem_difference, mem_savedTrackUris, mem_playlistTrackUris]
  · unfold reconcileMirror
    by_cases h1 : difference (playlistTrackUris pts) (savedTrackUris saved) = [] <;>
      by_cases h2 : difference (savedTrackUris saved) (playlistTrackUris pts) = [] <;>
        simp [h1, h2, List.length_eq_zero]
  · intro hiff
    have h1 : difference (playlistTrackUris pts) (savedTrackUris saved) = [] := by
      rw [List.eq_nil_iff_forall_not_mem]
      intro u hu
      rw [mem_difference, mem_playlistTrackUris, mem_savedTrackUris] at hu
      exact hu.2 ((hiff u).mp hu.1)
    have h2 : difference (savedTrackUris saved) (playlistTrackUris pts) = [] := by
      rw [List.eq_nil_iff_forall_not_mem]
      intro u hu
      rw [mem_difference, mem_savedTrackUris, mem_playlistTrackUris] at hu
      exact hu.2 ((hiff u).mpr hu.1)
    unfold reconcileMirror
    simp [h1, h2]

/-- The sets of the spec's worked example: desired `{A, B, C}`, current
mirror `{B, C, D}`. -/
def exSaved : List SavedTrack :=
  [mkSaved 1 [⟨"i", "I", ""⟩] "Al" "al" 1 1 "A",
   mkSaved 2 [⟨"i", "I", ""⟩] "Al" "al" 1 2 "B",
   mkSaved 3 [⟨"i", "I", ""⟩] "Al" "al" 1 3 "C"]

def exMirror : List PlaylistTrack :=
  [⟨some (mkSaved 2 [⟨"i", "I", ""⟩] "Al" "al" 1 2 "B").track⟩,
   ⟨some (mkSaved 3 [⟨"i", "I", ""⟩] "Al" "al" 1 3 "C").track⟩,
   ⟨some (mkSaved 4 [⟨"i", "I", ""⟩] "Al" "al" 1 4 "D").track⟩,
   ⟨none⟩]

theorem reconcileMirror_minimal_witness :
    reconcileMirror (savedTrackUris exSaved) (playlistTrackUris exMirror) =
      [MutationCall.removeCall ["spotify:track:D"],
       MutationCall.addCall ["spotify:track:A"]] := by
  have h := (reconcileMirror_minimal exSaved exMirror).2.2.1
  rw [h]
  decide

/-! ## Mirror-candidate classification (src/main.ts) -/

/-- Whether `pat` occurs at the start of `s`. -/
def startsWithChars : List Char → List Char → Bool
  | [], _ => true
  | _ :: _, [] => false
  | a :: as, b :: bs => a == b && startsWithChars as bs

/-- Whether `pat` occurs anywhere in `s` (String.prototype.includes). -/
def occursIn : List Char → List Char → Bool
  | pat, [] => pat.isEmpty
  | pat, c :: cs => startsWithChars pat (c :: cs) || occursIn pat cs

/-- `s.includes(pat)` on strings. -/
def containsSub (s pat : String) : Bool := occursIn pat.data s.data

theorem startsWithChars_iff :
    ∀ pat s : List Char, startsWithChars pat s = true ↔ ∃ post, s = pat ++ post := by
  intro pat
  induction pat with
  | nil => intro s; simp [startsWithChars]
  | cons a as ih =>
    intro s
    cases s with
    | nil => simp [startsWithChars]
    | cons b bs =>
      simp only [startsWithChars, Bool.and_eq_true, beq_iff_eq, ih,
        List.cons_append, List.cons_eq_cons]
      constructor
      · rintro ⟨rfl, post, rfl⟩
        exact ⟨post, rfl, rfl⟩
      · rintro ⟨post, rfl, rfl⟩
        exact ⟨rfl, post, rfl⟩

theorem occursIn_iff :
    ∀ s pat : List Char, occursIn pat s = true ↔
      ∃ pre post, s = pre ++ pat ++ post := by
  intro s
  induction s with
  | nil =>
    intro pat
    simp only [occursIn, List.isEmpty_iff]
    constructor
    · rintro rfl; exact ⟨[], [], rfl⟩
    · rintro ⟨pre, post, h⟩
      rcases List.append_eq_nil.mp (List.append_eq_nil.mp h.symm).1 with ⟨-, h2⟩
      exact h2
  | cons c cs ih =>
    intro pat
    simp only [occursIn, Bool.or_eq_true, startsWithChars_iff, ih]
    constructor
    · rintro (⟨post, h⟩ | ⟨pre, post, h⟩)
      · exact ⟨[], post, by simpa using h⟩
      · exact ⟨c :: pre, post, by simp [h]⟩
    · rintro ⟨pre, post, h⟩
      cases pre with
      | nil => exact Or.inl ⟨post, by simpa using h⟩
      | cons p ps =>
        rcases List.cons_eq_cons.mp h with ⟨rfl, h2⟩
        exact Or.inr ⟨ps, post, by simpa using h2⟩

/-- The mirror-candidate classification from `main()` (src/main.ts):

```ts
playlist.name.toLowerCase() == "liked songs (mirror)" &&
playlist.description?.toLowerCase().includes("spotify-to-github")
```

A null/absent description makes the optional chain `undefined`, hence
falsy. -/
def isMirrorCandidate (name : String) (description : Option String) : Bool :=
  (toLowerCase name == "liked songs (mirror)") &&
    ((description.map
      (fun d => containsSub (toLowerCase d) "spotify-to-github")).getD false)

/-- **C9** (mirror identification): a playlist is classified as the mirror
candidate iff its name case-insensitively equals "liked songs (mirror)"
and its description contains the provenance marker "spotify-to-github"
(case-insensitively); in particular the named example is selected, and the
same name with an unrelated description is not. -/
theorem isMirrorCandidate_iff (name : String) (description : Option String) :
    (isMirrorCandidate name description = true ↔
      (toLowerCase name = "liked songs (mirror)" ∧
        ∃ d, description = some d ∧
          ∃ pre post,
            (toLowerCase d).data = pre ++ "spotify-to-github".data ++ post)) ∧
    isMirrorCandidate "Liked Songs (Mirror)"
      (some "Synced by spotify-to-github") = true ∧
    isMirrorCandidate "Liked Songs (Mirror)" (some "My favourite songs") = false := by
  refine ⟨?_, by decide, by decide⟩
  unfold isMirrorCandidate containsSub
  cases description with
  | none =>
    simp
  | some d =>
    simp only [Option.map_some', Option.getD_some, Bool.and_eq_true, beq_iff_eq]
    rw [occursIn_iff]
    constructor
    · rintro ⟨h1, h2⟩
      exact ⟨h1, d, rfl, h2⟩
    · rintro ⟨h1, d', hd, h2⟩
      obtain rfl : d = d' := by injection hd
      exact ⟨h1, h2⟩

/-! ## Token exchange (src/spotify.ts `getAccessToken`) -/

/-- The token-endpoint response: the HTTP success flag and the parsed JSON
body, as string fields. -/
structure TokenResponse where
  ok : Bool
  body : List (String × String)
deriving DecidableEq

/-- `getAccessToken` from src/spotify.ts:

```ts
const response = await fetch(ENDPOINTS.TOKEN, { method: "POST", ... });
const { access_token } = await response.json();
return access_token;
```

It destructures `access_token` from the parsed body and returns it as is:
no status check, no presence check (an absent field is `undefined`,
`none` here), and no error is ever raised by the function itself. -/
def getAccessToken (response : TokenResponse) : Option String :=
  qlookup response.body "access_token"

/-- The token exchange as C6's words describe it — fail with an
`AuthenticationError` whenever the response is not a success status or
lacks the token —, used only to exhibit the divergence from the source. -/
def getAccessTokenClaim (response : TokenResponse) : Except String String :=
  match response.ok, qlookup response.body "access_token" with
  | true, some t => Except.ok t
  | _, _ => Except.error "AuthenticationError"

/-- **C6** counterexample: on a non-success response (or one lacking the
token field) the claim demands failure, but `getAccessToken` returns
normally — the token field's value as is (`none` when absent, the token
even under a failed status). -/
theorem getAccessToken_no_failure_cex :
    getAccessToken ⟨false, [("error", "invalid_grant")]⟩ = none ∧
    getAccessTokenClaim ⟨false, [("error", "invalid_grant")]⟩
      = Except.error "AuthenticationError" ∧
    getAccessToken ⟨false, [("access_token", "tok")]⟩ = some "tok" ∧
    getAccessTokenClaim ⟨false, [("access_token", "tok")]⟩
      = Except.error "AuthenticationError" ∧
    getAccessToken ⟨true, []⟩ = none := by
  exact ⟨rfl, rfl, rfl, rfl, rfl⟩

/-- **C6** (amended): `getAccessToken` returns the `access_token` field of
the parsed body unchanged — in particular the token string on a success
response that carries one — and never raises: its result depends only on
the body, the HTTP status is not consulted, and a missing field yields the
absent value rather than an error. -/
theorem getAccessToken_returns_field :
    (∀ r : TokenResponse, getAccessToken r = qlookup r.body "access_token") ∧
    (∀ r : TokenResponse, r.ok = true → ∀ t,
      qlookup r.body "access_token" = some t → getAccessToken r = some t) ∧
    (∀ r : TokenResponse, qlookup r.body "access_token" = none →
      getAccessToken r = none) ∧
    (∀ r r' : TokenResponse, r.body = r'.body →
      getAccessToken r = getAccessToken r') := by
  refine ⟨fun r => rfl, fun r _ t h => h, fun r h => h, fun r r' h => ?_⟩
  unfold getAccessToken
  rw [h]

end SpotifyToGithub
